import Mathlib

/-!
Verification of the OTP (HOTP / TOTP) core of `otp-rs`.

The repository contains two evolutions of the same design:
* `lib.rs` — a self-contained `Hotp` type: `get_value` computes
  HMAC-SHA1 over the big-endian counter, dynamically truncates
  (`dt`, `dt_substr`, `dt_offset`) and reduces modulo `10^len`.
* `hotp.rs` / `totp.rs` — a generic engine `Otp<T>` over a `ToBytes`
  byte source, with `Counter` and `Time` sources.

Machine integers are modelled as `Nat` with explicit `% 2^w` where the
source wraps; Rust panics (integer division by zero, `Instant`
subtraction underflow) are modelled with `Option`, `None` being a panic.
The HMAC primitive (the `hmac`/`sha1` crates) is an external collaborator:
its key-acceptance check `Sha1Hmac::new_from_slice` is a parameter
`hmacInit`, instantiated by `hmacInitSha1` (HMAC-SHA1 accepts every key
length, so it never rejects); its digest is computed by a full executable
SHA-1 / HMAC-SHA1 implementation below.
-/

deriving instance DecidableEq for Except

namespace OtpRs

/-! ### Bytes and words -/

/-- The 2^32 modulus of `u32` arithmetic. -/
def w32 : Nat := 4294967296

/-- The 2^64 modulus of `u64` arithmetic. -/
def w64 : Nat := 18446744073709551616

/-- `u64::to_be_bytes`: the eight big-endian bytes of a 64-bit value
(higher bits of an out-of-range `Nat` are discarded by the byte masks). -/
def u64ToBeBytes (n : Nat) : List Nat :=
  [(n >>> 56) % 256, (n >>> 48) % 256, (n >>> 40) % 256, (n >>> 32) % 256,
   (n >>> 24) % 256, (n >>> 16) % 256, (n >>> 8) % 256, n % 256]

/-- `u32::to_be_bytes`: the four big-endian bytes of a 32-bit value. -/
def u32ToBeBytes (n : Nat) : List Nat :=
  [(n >>> 24) % 256, (n >>> 16) % 256, (n >>> 8) % 256, n % 256]

/-- `u32::from_be_bytes`: recombine big-endian bytes into an integer. -/
def beBytesToNat (bs : List Nat) : Nat :=
  bs.foldl (fun acc b => acc * 256 + b) 0

/-! ### SHA-1 (the `sha1` crate, an external collaborator) -/

/-- Rotate a 32-bit word left by `s` bits. -/
def rotl (s x : Nat) : Nat :=
  ((x <<< s) ||| (x >>> (32 - s))) % w32

/-- Group a byte list into big-endian 32-bit words. -/
def wordsOfBytes : List Nat → List Nat
  | a :: b :: c :: d :: rest =>
      (((a * 256 + b) * 256 + c) * 256 + d) :: wordsOfBytes rest
  | _ => []

/-- SHA-1 message padding: `0x80`, zeros, then the bit length as eight
big-endian bytes, to a multiple of 64 bytes. -/
def sha1Pad (msg : List Nat) : List Nat :=
  msg ++ 128 :: List.replicate ((119 - msg.length % 64) % 64) 0
      ++ u64ToBeBytes (8 * msg.length)

/-- One step of the SHA-1 message-schedule extension, keeping the words
most-recent-first. -/
def sha1ExtendStep (rw : List Nat) : List Nat :=
  rotl 1 (rw.getD 2 0 ^^^ rw.getD 7 0 ^^^ rw.getD 13 0 ^^^ rw.getD 15 0) :: rw

/-- Extend sixteen schedule words to eighty. -/
def sha1Schedule (ws : List Nat) : List Nat :=
  ((List.range 64).foldl (fun rw _ => sha1ExtendStep rw) ws.reverse).reverse

/-- One SHA-1 round: `i` is the round index, `wi` the schedule word. -/
def sha1Round (st : Nat × Nat × Nat × Nat × Nat) (p : Nat × Nat) :
    Nat × Nat × Nat × Nat × Nat :=
  let (a, b, c, d, e) := st
  let (i, wi) := p
  let f :=
    if i < 20 then (b &&& c) ||| ((b ^^^ 4294967295) &&& d)
    else if i < 40 then b ^^^ c ^^^ d
    else if i < 60 then (b &&& c) ||| (b &&& d) ||| (c &&& d)
    else b ^^^ c ^^^ d
  let k :=
    if i < 20 then 1518500249
    else if i < 40 then 1859775393
    else if i < 60 then 2400959708
    else 3395469782
  let temp := (rotl 5 a + f + e + k + wi) % w32
  (temp, a, rotl 30 b, c, d)

/-- SHA-1 compression of one 64-byte block into the running state. -/
def sha1Compress (h : Nat × Nat × Nat × Nat × Nat) (block : List Nat) :
    Nat × Nat × Nat × Nat × Nat :=
  let w := sha1Schedule (wordsOfBytes block)
  let (h0, h1, h2, h3, h4) := h
  let (a, b, c, d, e) :=
    ((List.range 80).zip w).foldl sha1Round (h0, h1, h2, h3, h4)
  ((h0 + a) % w32, (h1 + b) % w32, (h2 + c) % w32, (h3 + d) % w32,
   (h4 + e) % w32)

/-- Feed one byte into a 64-byte buffer, compressing when it fills. -/
def sha1Feed (st : List Nat × (Nat × Nat × Nat × Nat × Nat)) (b : Nat) :
    List Nat × (Nat × Nat × Nat × Nat × Nat) :=
  let buf := st.1 ++ [b]
  if buf.length == 64 then ([], sha1Compress st.2 buf) else (buf, st.2)

/-- The full SHA-1 digest (twenty bytes) of a byte list. -/
def sha1 (msg : List Nat) : List Nat :=
  let init := (1732584193, 4023233417, 2562383102, 271733878, 3285377520)
  let (_, (h0, h1, h2, h3, h4)) := (sha1Pad msg).foldl sha1Feed ([], init)
  u32ToBeBytes h0 ++ u32ToBeBytes h1 ++ u32ToBeBytes h2 ++ u32ToBeBytes h3
    ++ u32ToBeBytes h4

/-! ### HMAC-SHA1 (the `hmac` crate, an external collaborator) -/

/-- HMAC-SHA1 of `msg` under `key` (block size 64, digest size 20). -/
def hmacSha1 (key msg : List Nat) : List Nat :=
  let k0 :=
    if key.length > 64 then sha1 key ++ List.replicate 44 0
    else key ++ List.replicate (64 - key.length) 0
  let ipad := k0.map (fun b => b ^^^ 54)
  let opad := k0.map (fun b => b ^^^ 92)
  sha1 (opad ++ sha1 (ipad ++ msg))

/-! ### Error type and HMAC initialization (`lib.rs`) -/

/-- `HotpError` from `lib.rs`: the single variant wraps the `hmac`
crate's `InvalidLength` rejection. -/
inductive HotpError where
  | HmacError : HotpError
  deriving DecidableEq, Repr

/-- The key-acceptance check of `Sha1Hmac::new_from_slice`. HMAC-SHA1
hashes long keys and pads short ones, so every key length is accepted:
the check never fails. -/
def hmacInitSha1 : List Nat → Option Unit := fun _ => some ()

/-- `hmac` from `lib.rs`: HMAC-SHA1 of the counter's eight big-endian
bytes under the UTF-8 bytes of the key, after the fallible
`new_from_slice` initialization (abstracted as `hmacInit`). -/
def hmac (hmacInit : List Nat → Option Unit) (key : List Nat)
    (counter : Nat) : Except HotpError (List Nat) :=
  match hmacInit key with
  | none => .error .HmacError
  | some _ => .ok (hmacSha1 key (u64ToBeBytes counter))

/-! ### Dynamic truncation (`lib.rs`) -/

/-- `dt_offset` from `lib.rs`: the low four bits of the digest's last
byte. -/
def dt_offset (hs : List Nat) : Nat :=
  hs.getD 19 0 &&& 15

/-- `dt_substr` from `lib.rs`: the four-byte window
`hs[offset..offset+4]`. -/
def dt_substr (hs : List Nat) (offset : Nat) : List Nat :=
  (hs.drop offset).take 4

/-- `dt` from `lib.rs`: dynamic truncation — take the window at
`dt_offset` and clear the top bit of its first byte. -/
def dt (hs : List Nat) : List Nat :=
  let offset := dt_offset hs
  match dt_substr hs offset with
  | b :: rest => (b &&& 127) :: rest
  | [] => []

/-! ### The `Hotp` type of `lib.rs` -/

/-- The `Hotp` struct of `lib.rs`: a counter (`u64`), the key, and the
passcode length (`u32`). -/
structure Hotp where
  counter : Nat
  key : List Nat
  len : Nat
  deriving DecidableEq, Repr

/-- `Hotp::new` from `lib.rs`. -/
def Hotp.new (key : List Nat) (counter : Nat) (len : Nat) : Hotp :=
  ⟨counter, key, len⟩

/-- `Hotp::increment_counter` from `lib.rs`: `self.counter += 1`,
wrapping at 2^64 (overflow checks disabled). -/
def Hotp.increment_counter (h : Hotp) : Hotp :=
  { h with counter := (h.counter + 1) % w64 }

/-- `Hotp::get_value` from `lib.rs`: HMAC over the current counter,
dynamic truncation, big-endian conversion, counter increment, then
reduction modulo `10_u32.pow(len)`. The `u32` power wraps at 2^32
(overflow checks disabled); a wrapped modulus of zero makes the final
`%` a division-by-zero panic (`none`). The returned pair carries the
result and the (possibly mutated) receiver: on the HMAC error path the
`?` returns before `increment_counter`, so the state is unchanged. -/
def Hotp.get_value (hmacInit : List Nat → Option Unit) (h : Hotp) :
    Option (Except HotpError Nat × Hotp) :=
  match hmac hmacInit h.key h.counter with
  | .error e => some (.error e, h)
  | .ok hs =>
    let sbits := dt hs
    let snum := beBytesToNat sbits
    let h' := h.increment_counter
    let m := 10 ^ h.len % w32
    if m = 0 then none else some (.ok (snum % m), h')

/-! ### The generic engine `Otp<T>` (`hotp.rs` / `totp.rs` evolution) -/

/-- The `Otp<T>` struct of the generic evolution: key, byte-source
generator, digit count. -/
structure Otp (γ : Type) where
  key : List Nat
  generator : γ
  digits : Nat

/-- Modelled from the spec: `Otp::<T>::get` — the engine method used by
`hotp.rs` and `totp.rs` — is not under `src/` (only its callers and the
`ToBytes` implementations are). Following spec §4.2: (1) call the
generator's `produce`/`to_bytes` for the 8-byte moving factor, mutating
the generator; (2) compute HMAC-SHA1 (fallible initialization); (3–5)
dynamic truncation, masking, big-endian conversion; (6) reduce modulo
`10^digits`. A generator panic (`none` from `toBytes`) propagates; an
HMAC failure is returned with the generator already advanced. -/
def Otp.get (hmacInit : List Nat → Option Unit)
    (toBytes : γ → Option (List Nat × γ)) (o : Otp γ) :
    Option (Except HotpError Nat × Otp γ) :=
  match toBytes o.generator with
  | none => none
  | some (c, g') =>
    let o' := { o with generator := g' }
    match hmacInit o.key with
    | none => some (.error .HmacError, o')
    | some _ =>
      some (.ok (beBytesToNat (dt (hmacSha1 o.key c)) % 10 ^ o.digits), o')

/-! ### The `Counter` byte source (`hotp.rs`) -/

/-- The `Counter` struct of `hotp.rs`. -/
structure Counter where
  count : Nat
  deriving DecidableEq, Repr

/-- `impl ToBytes for Counter` from `hotp.rs`: return the current count
as eight big-endian bytes, then `self.count += 1` (wrapping at 2^64,
overflow checks disabled). Never fails. -/
def Counter.to_bytes (c : Counter) : Option (List Nat × Counter) :=
  some (u64ToBeBytes c.count, ⟨(c.count + 1) % w64⟩)

/-- `Hotp::new` of the generic evolution (`hotp.rs`): build the engine
over a `Counter` at the given initial count. -/
def OtpHotp.new (key : List Nat) (initial_count : Nat) (length : Nat) :
    Otp Counter :=
  { key := key, generator := ⟨initial_count⟩, digits := length }

/-! ### Instants and the `Time` byte source (`totp.rs`) -/

/-- `unix_time::Instant`: seconds and nanoseconds since the Unix
epoch (`Instant::at(secs, nanos)`). -/
structure Instant where
  secs : Nat
  nanos : Nat
  deriving DecidableEq, Repr

/-- Lexicographic comparison of instants (used by the panicking
`Instant` subtraction). -/
def Instant.leb (a b : Instant) : Bool :=
  a.secs < b.secs || (a.secs == b.secs && a.nanos ≤ b.nanos)

/-- `now - t0` followed by `Duration::as_secs`: the elapsed whole
seconds. Subtracting a later instant panics (`none`). -/
def Instant.elapsedSecs (now t0 : Instant) : Option Nat :=
  if Instant.leb t0 now then
    some (if t0.nanos ≤ now.nanos then now.secs - t0.secs
          else now.secs - t0.secs - 1)
  else none

/-- The `Time` struct of `totp.rs` minus its boxed clock closure: the
clock is injected per call as the `Instant` it returns (`nowv`). -/
structure Time where
  t0 : Instant
  step : Nat
  deriving DecidableEq, Repr

/-- `impl ToBytes for Time` from `totp.rs`: `elapsed = now - t0`
(panics if `now < t0`), `steps = elapsed.as_secs() / step` (u64 division,
panics if `step == 0`), returned as eight big-endian bytes. The state is
not mutated. -/
def Time.to_bytes (nowv : Instant) (t : Time) : Option (List Nat × Time) :=
  match Instant.elapsedSecs nowv t.t0 with
  | none => none
  | some elapsed =>
    if t.step = 0 then none
    else some (u64ToBeBytes (elapsed / t.step), t)

/-- `Totp::new_with_now` from `totp.rs`: build the engine over a `Time`
generator; no parameter validation is performed. The boxed `now` closure
is modelled by passing the clock reading to each `get` call. -/
def Totp.new_with_now (key : List Nat) (t0 : Instant) (step : Nat)
    (digits : Nat) : Otp Time :=
  { key := key, generator := { t0 := t0, step := step }, digits := digits }

/-- One `Totp::get` call observing the clock reading `nowv`. -/
def Totp.get (hmacInit : List Nat → Option Unit) (o : Otp Time)
    (nowv : Instant) : Option (Except HotpError Nat × Otp Time) :=
  Otp.get hmacInit (Time.to_bytes nowv) o

/-! ### RFC test fixtures -/

/-- The ASCII bytes of the RFC 4226 / RFC 6238 test key
`"12345678901234567890"`. -/
def rfcKey : List Nat :=
  [49, 50, 51, 52, 53, 54, 55, 56, 57, 48,
   49, 50, 51, 52, 53, 54, 55, 56, 57, 48]

/-- The passcode produced by one `Hotp::get_value` call, `none` on a
panic or HMAC failure. -/
def hotpCode (key : List Nat) (counter len : Nat) : Option Nat :=
  match (Hotp.new key counter len).get_value hmacInitSha1 with
  | some (.ok v, _) => some v
  | _ => none

/-- The passcode produced by one `Totp::get` call at clock reading
`nowv`, `none` on a panic or HMAC failure. -/
def totpCode (key : List Nat) (t0 : Instant) (step digits : Nat)
    (nowv : Instant) : Option Nat :=
  match Totp.get hmacInitSha1 (Totp.new_with_now key t0 step digits) nowv with
  | some (.ok v, _) => some v
  | _ => none

/-- The codes observed by calling `Hotp::get_value` `n` times in a row
on one generator (a failed call contributes `none` and, as on the source
error path, leaves the state unchanged). -/
def hotpCodes (h : Hotp) : Nat → List (Option Nat)
  | 0 => []
  | n + 1 =>
    match h.get_value hmacInitSha1 with
    | some (.ok v, h') => some v :: hotpCodes h' n
    | _ => none :: hotpCodes h n

/-! ### Helper lemmas -/

/-- A power of ten that fits below `2^32 + 1` is strictly below `2^32`
(no power of ten equals a power of two). -/
lemma pow10_lt_w32 {d : Nat} (hd : 10 ^ d ≤ w32) : 10 ^ d < w32 := by
  rcases Nat.lt_or_ge d 10 with h | h
  · calc 10 ^ d ≤ 10 ^ 9 := Nat.pow_le_pow_right (by norm_num) (by omega)
    _ < w32 := by norm_num [w32]
  · exfalso
    have h1 : (10 : Nat) ^ 10 ≤ 10 ^ d := Nat.pow_le_pow_right (by norm_num) h
    have h2 : (10 : Nat) ^ 10 ≤ w32 := le_trans h1 hd
    norm_num [w32] at h2

/-- With an accepted key and a nonzero modulus, `get_value` succeeds
and advances the counter. -/
lemma get_value_ok (hI : List Nat → Option Unit) (h : Hotp) (u : Unit)
    (hhI : hI h.key = some u) (hm : 10 ^ h.len % w32 ≠ 0) :
    h.get_value hI =
      some (.ok (beBytesToNat (dt (hmacSha1 h.key (u64ToBeBytes h.counter)))
              % (10 ^ h.len % w32)),
            { h with counter := (h.counter + 1) % w64 }) := by
  simp [Hotp.get_value, hmac, hhI, Hotp.increment_counter, hm]

/-- Specialization of `get_value_ok` to the never-failing HMAC-SHA1
initialization. -/
lemma get_value_sha1_ok (h : Hotp) (hm : 10 ^ h.len % w32 ≠ 0) :
    h.get_value hmacInitSha1 =
      some (.ok (beBytesToNat (dt (hmacSha1 h.key (u64ToBeBytes h.counter)))
              % (10 ^ h.len % w32)),
            { h with counter := (h.counter + 1) % w64 }) :=
  get_value_ok hmacInitSha1 h () rfl hm

/-- A clock reading `a` whole seconds after `t0` elapses to exactly
`a` seconds. -/
lemma elapsedSecs_add (t0 : Instant) (a : Nat) :
    Instant.elapsedSecs ⟨t0.secs + a, t0.nanos⟩ t0 = some a := by
  have h1 : Instant.leb t0 ⟨t0.secs + a, t0.nanos⟩ = true := by
    simp [Instant.leb]
    omega
  unfold Instant.elapsedSecs
  rw [if_pos h1]
  simp

/-- Addition before reduction modulo `2^64` may be reduced first. -/
lemma add_mod_w64 (x y : Nat) : (x + y) % w64 = (x % w64 + y) % w64 := by
  unfold w64
  omega

/-- When the clock is not earlier than the epoch, the elapsed-seconds
computation succeeds with the borrowed difference. -/
lemma elapsedSecs_isSome (t0 nowv : Instant)
    (hle : Instant.leb t0 nowv = true) :
    Instant.elapsedSecs nowv t0
      = some (if t0.nanos ≤ nowv.nanos then nowv.secs - t0.secs
              else nowv.secs - t0.secs - 1) := by
  unfold Instant.elapsedSecs
  rw [if_pos hle]

/-! ### Claim theorems -/

/-- C2. Digit-length bound: whenever `10^len ≤ 2^32`, a successful
`Hotp::get_value` call returns a passcode strictly below `10^len`. -/
theorem get_value_digit_bound (hI : List Nat → Option Unit) (h h' : Hotp)
    (v : Nat) (hd : 10 ^ h.len ≤ w32)
    (hok : h.get_value hI = some (.ok v, h')) : v < 10 ^ h.len := by
  have hlt : 10 ^ h.len < w32 := pow10_lt_w32 hd
  have hmod : 10 ^ h.len % w32 = 10 ^ h.len := Nat.mod_eq_of_lt hlt
  have hpos : 0 < 10 ^ h.len := Nat.pos_pow_of_pos _ (by norm_num)
  cases hhI : hI h.key with
  | none =>
    simp [Hotp.get_value, hmac, hhI] at hok
  | some u =>
    simp [Hotp.get_value, hmac, hhI, hmod, Nat.pos_iff_ne_zero.mp hpos]
      at hok
    omega

set_option maxRecDepth 1000000 in
/-- Witness for C2 at the first RFC 4226 vector. -/
theorem get_value_digit_bound_witness :
    755224 < 10 ^ (Hotp.new rfcKey 0 6).len :=
  get_value_digit_bound hmacInitSha1 (Hotp.new rfcKey 0 6) ⟨1, rfcKey, 6⟩
    755224 (by decide) (by decide)

/-- C5. Dynamic-truncation bounds: for a 20-byte digest the offset
`hs[19] & 0x0F` is at most 15, the window `hs[offset..offset+4]` stays
inside the buffer, and the extracted slice always has exactly 4 bytes,
so the conversion to a 4-byte array cannot fail. -/
theorem dt_bounds (hs : List Nat) (hlen : hs.length = 20) :
    dt_offset hs ≤ 15 ∧ dt_offset hs + 4 ≤ 20 ∧
      (dt_substr hs (dt_offset hs)).length = 4 := by
  have h1 : dt_offset hs ≤ 15 := Nat.and_le_right
  refine ⟨h1, by omega, ?_⟩
  simp only [dt_substr, List.length_take, List.length_drop, hlen]
  omega

/-- Witness for C5 at a concrete all-zero digest. -/
theorem dt_bounds_witness :
    dt_offset (List.replicate 20 0) ≤ 15 ∧
      dt_offset (List.replicate 20 0) + 4 ≤ 20 ∧
      (dt_substr (List.replicate 20 0)
        (dt_offset (List.replicate 20 0))).length = 4 :=
  dt_bounds (List.replicate 20 0) (by decide)

/-- C6. Counter wraparound: a successful `get_value` leaves the counter
at `(c + 1) % 2^64`, and at `c = 2^64 - 1` the call still succeeds with
the counter wrapped to 0. -/
theorem counter_wraparound (key : List Nat) (d c : Nat)
    (hd : 10 ^ d ≤ w32) (hc : c < w64) :
    (∀ v h', (Hotp.new key c d).get_value hmacInitSha1 = some (.ok v, h') →
      h'.counter = (c + 1) % w64) ∧
    (c = w64 - 1 → ∃ v, (Hotp.new key c d).get_value hmacInitSha1
      = some (.ok v, Hotp.new key 0 d)) := by
  have hlt : 10 ^ d < w32 := pow10_lt_w32 hd
  have hm : 10 ^ d % w32 ≠ 0 := by
    rw [Nat.mod_eq_of_lt hlt]
    exact Nat.pos_iff_ne_zero.mp (Nat.pos_pow_of_pos _ (by norm_num))
  have hok := get_value_sha1_ok (Hotp.new key c d) (by simpa [Hotp.new] using hm)
  constructor
  · intro v h' hv
    rw [hok] at hv
    simp only [Option.some.injEq, Prod.mk.injEq] at hv
    rw [← hv.2]
    simp [Hotp.new]
  · intro hmax
    subst hmax
    refine ⟨beBytesToNat (dt (hmacSha1 key (u64ToBeBytes (w64 - 1))))
      % (10 ^ d % w32), ?_⟩
    rw [hok]
    have hw : (w64 - 1 + 1) % w64 = 0 := by
      unfold w64
      omega
    simp [Hotp.new, hw]

/-- Witness for C6 at `u64::MAX` with six digits and the RFC key. -/
theorem counter_wraparound_witness :
    (∀ v h', (Hotp.new rfcKey (w64 - 1) 6).get_value hmacInitSha1
        = some (.ok v, h') → h'.counter = (w64 - 1 + 1) % w64) ∧
    (w64 - 1 = w64 - 1 → ∃ v, (Hotp.new rfcKey (w64 - 1) 6).get_value
        hmacInitSha1 = some (.ok v, Hotp.new rfcKey 0 6)) :=
  counter_wraparound rfcKey 6 (w64 - 1) (by decide) (by decide)

/-- C7. State mutation precedes the fallible HMAC step in the generic
engine: `Counter::to_bytes` itself never fails, and when HMAC
initialization rejects the key, `Otp::get` returns the `HmacError` with
the counter already advanced by 1 (wrapping at 2^64). -/
theorem hmac_failure_after_advance (hI : List Nat → Option Unit)
    (key : List Nat) (d c : Nat) (hfail : hI key = none) :
    Counter.to_bytes ⟨c⟩ = some (u64ToBeBytes c, ⟨(c + 1) % w64⟩) ∧
    Otp.get hI Counter.to_bytes { key := key, generator := ⟨c⟩, digits := d }
      = some (.error .HmacError,
              { key := key, generator := ⟨(c + 1) % w64⟩, digits := d }) := by
  constructor
  · rfl
  · simp [Otp.get, Counter.to_bytes, hfail]

/-- Witness for C7 with an always-rejecting HMAC initialization. -/
theorem hmac_failure_after_advance_witness :
    Counter.to_bytes ⟨5⟩ = some (u64ToBeBytes 5, ⟨(5 + 1) % w64⟩) ∧
    Otp.get (fun _ => none) Counter.to_bytes
        { key := rfcKey, generator := ⟨5⟩, digits := 6 }
      = some (.error .HmacError,
              { key := rfcKey, generator := ⟨(5 + 1) % w64⟩, digits := 6 }) :=
  hmac_failure_after_advance (fun _ => none) rfcKey 6 5 rfl

/-- C8. Single fallible step: for a valid digit count, `get_value` never
panics, fails (with the typed `HmacError`, the state untouched) exactly
when HMAC initialization rejects the key, and returns `Ok` with the
counter advanced in every other case. -/
theorem get_value_single_fallible_step (hI : List Nat → Option Unit)
    (key : List Nat) (c d : Nat) (hd : 10 ^ d ≤ w32) :
    ((Hotp.new key c d).get_value hI).isSome = true ∧
    (hI key = none → (Hotp.new key c d).get_value hI
      = some (.error .HmacError, Hotp.new key c d)) ∧
    (∀ u, hI key = some u → ∃ v, (Hotp.new key c d).get_value hI
      = some (.ok v, Hotp.new key ((c + 1) % w64) d)) := by
  have hlt : 10 ^ d < w32 := pow10_lt_w32 hd
  have hm : 10 ^ d % w32 ≠ 0 := by
    rw [Nat.mod_eq_of_lt hlt]
    exact Nat.pos_iff_ne_zero.mp (Nat.pos_pow_of_pos _ (by norm_num))
  cases hhI : hI key with
  | none =>
    refine ⟨?_, ?_, ?_⟩
    · simp [Hotp.get_value, hmac, Hotp.new, hhI]
    · intro _
      simp [Hotp.get_value, hmac, Hotp.new, hhI]
    · intro u hu
      exact absurd hu (by simp)
  | some u =>
    have hok := get_value_ok hI (Hotp.new key c d) u
      (by simpa [Hotp.new] using hhI) (by simpa [Hotp.new] using hm)
    refine ⟨?_, ?_, ?_⟩
    · rw [hok]
      rfl
    · intro hn
      exact absurd hn (by simp)
    · intro u2 _
      refine ⟨beBytesToNat (dt (hmacSha1 key (u64ToBeBytes c)))
        % (10 ^ d % w32), ?_⟩
      rw [hok]
      simp [Hotp.new]

/-- Witness for C8 with the real (never-rejecting) HMAC-SHA1
initialization at the first RFC key and counter 0. -/
theorem get_value_single_fallible_step_witness :
    ((Hotp.new rfcKey 0 6).get_value hmacInitSha1).isSome = true ∧
    (hmacInitSha1 rfcKey = none → (Hotp.new rfcKey 0 6).get_value
        hmacInitSha1 = some (.error .HmacError, Hotp.new rfcKey 0 6)) ∧
    (∀ u, hmacInitSha1 rfcKey = some u →
      ∃ v, (Hotp.new rfcKey 0 6).get_value hmacInitSha1
        = some (.ok v, Hotp.new rfcKey ((0 + 1) % w64) 6)) :=
  get_value_single_fallible_step hmacInitSha1 rfcKey 0 6 (by decide)

/-- C3. Time-window stability: two `Totp::get` calls whose clock
readings are `t0 + a` and `t0 + b` whole seconds return identical
results whenever `floor(a/S) = floor(b/S)` (step `S > 0`). -/
theorem totp_time_window_stability (key : List Nat) (t0 : Instant)
    (S d a b : Nat) (hS : 0 < S) (hw : a / S = b / S) :
    Totp.get hmacInitSha1 (Totp.new_with_now key t0 S d)
        ⟨t0.secs + a, t0.nanos⟩
      = Totp.get hmacInitSha1 (Totp.new_with_now key t0 S d)
        ⟨t0.secs + b, t0.nanos⟩ := by
  have hS0 : S ≠ 0 := Nat.pos_iff_ne_zero.mp hS
  simp [Totp.get, Otp.get, Time.to_bytes, Totp.new_with_now,
        elapsedSecs_add, hS0, hw]

/-- Witness for C3: seconds 0 and 29 fall in the same 30-second
window. -/
theorem totp_time_window_stability_witness :
    Totp.get hmacInitSha1 (Totp.new_with_now rfcKey ⟨0, 0⟩ 30 8)
        ⟨(⟨0, 0⟩ : Instant).secs + 0, (⟨0, 0⟩ : Instant).nanos⟩
      = Totp.get hmacInitSha1 (Totp.new_with_now rfcKey ⟨0, 0⟩ 30 8)
        ⟨(⟨0, 0⟩ : Instant).secs + 29, (⟨0, 0⟩ : Instant).nanos⟩ :=
  totp_time_window_stability rfcKey ⟨0, 0⟩ 30 8 0 29 (by decide) (by decide)

/-- The sequence of `n` chained calls equals the codes of fresh
generators at the consecutive (wrapped) counters. -/
lemma hotpCodes_fresh (key : List Nat) (d : Nat) (hm : 10 ^ d % w32 ≠ 0) :
    ∀ n k, k < w64 →
      hotpCodes (Hotp.new key k d) n
        = (List.range n).map (fun i => hotpCode key ((k + i) % w64) d) := by
  intro n
  induction n with
  | zero =>
    intro k hk
    simp [hotpCodes]
  | succ n ih =>
    intro k hk
    have hok := get_value_sha1_ok (Hotp.new key k d)
      (by simpa [Hotp.new] using hm)
    rw [List.range_succ_eq_map, List.map_cons, List.map_map]
    simp only [hotpCodes, hok]
    congr 1
    · have hk0 : (k + 0) % w64 = k := by
        rw [Nat.add_zero, Nat.mod_eq_of_lt hk]
      rw [hk0]
      unfold hotpCode
      rw [get_value_sha1_ok (Hotp.new key k d) (by simpa [Hotp.new] using hm)]
    · have hlt' : (k + 1) % w64 < w64 := Nat.mod_lt _ (by unfold w64; omega)
      have hstep : ({ Hotp.new key k d with
          counter := ((Hotp.new key k d).counter + 1) % w64 } : Hotp)
            = Hotp.new key ((k + 1) % w64) d := rfl
      rw [hstep, ih ((k + 1) % w64) hlt']
      apply List.map_congr_left
      intro i _
      have : ((k + 1) % w64 + i) % w64 = (k + (i + 1)) % w64 := by
        unfold w64
        omega
      simp [Function.comp, this, Nat.succ_eq_add_one]

/-- C4. Counter sequence equivalence: `n` chained `get_value` calls
from initial counter `k` produce the same codes as one call each on
fresh generators at counters `k`, `k+1`, …, `k+n-1` (wrapping at
2^64). -/
theorem hotp_counter_sequence_equiv (key : List Nat) (d k n : Nat)
    (hk : k < w64) (hd : 10 ^ d ≤ w32) :
    hotpCodes (Hotp.new key k d) n
      = (List.range n).map (fun i => hotpCode key ((k + i) % w64) d) := by
  have hm : 10 ^ d % w32 ≠ 0 := by
    rw [Nat.mod_eq_of_lt (pow10_lt_w32 hd)]
    exact Nat.pos_iff_ne_zero.mp (Nat.pos_pow_of_pos _ (by norm_num))
  exact hotpCodes_fresh key d hm n k hk

/-- Witness for C4 with two chained calls from counter 0. -/
theorem hotp_counter_sequence_equiv_witness :
    hotpCodes (Hotp.new rfcKey 0 6) 2
      = (List.range 2).map (fun i => hotpCode rfcKey ((0 + i) % w64) 6) :=
  hotp_counter_sequence_equiv rfcKey 6 0 2 (by decide) (by decide)

/-- C9 counterexample: constructing a Time-variant generator with step
duration 0 is not rejected — `Totp::new_with_now` returns a generator
holding `step = 0` (its type has no error channel), and the first
`get` call then panics (division by zero) instead of having failed at
construction. -/
theorem totp_construction_not_rejected :
    Totp.new_with_now rfcKey ⟨0, 0⟩ 0 8
      = { key := rfcKey, generator := { t0 := ⟨0, 0⟩, step := 0 },
          digits := 8 }
    ∧ Totp.get hmacInitSha1 (Totp.new_with_now rfcKey ⟨0, 0⟩ 0 8) ⟨59, 0⟩
      = none :=
  ⟨rfl, rfl⟩

/-- C9 amended: construction performs no validation — both constructors
store their parameters unchanged (step 0 and any digit count included),
and a step-0 Time generator panics at its first `get` call whose clock
is not before the epoch, rather than failing at construction. -/
theorem construction_no_validation (key : List Nat) (t0 nowv : Instant)
    (step digits c len : Nat) (hnow : Instant.leb t0 nowv = true) :
    Totp.new_with_now key t0 step digits
      = { key := key, generator := { t0 := t0, step := step },
          digits := digits }
    ∧ Hotp.new key c len = ⟨c, key, len⟩
    ∧ Totp.get hmacInitSha1 (Totp.new_with_now key t0 0 digits) nowv
      = none := by
  refine ⟨rfl, rfl, ?_⟩
  simp [Totp.get, Otp.get, Time.to_bytes, Totp.new_with_now,
        elapsedSecs_isSome t0 nowv hnow]

/-- Witness for C9's amended statement at concrete parameters. -/
theorem construction_no_validation_witness :
    Totp.new_with_now rfcKey ⟨0, 0⟩ 30 8
      = { key := rfcKey, generator := { t0 := ⟨0, 0⟩, step := 30 },
          digits := 8 }
    ∧ Hotp.new rfcKey 5 6 = ⟨5, rfcKey, 6⟩
    ∧ Totp.get hmacInitSha1 (Totp.new_with_now rfcKey ⟨0, 0⟩ 0 8) ⟨59, 0⟩
      = none :=
  construction_no_validation rfcKey ⟨0, 0⟩ ⟨59, 0⟩ 30 8 5 6 (by decide)

/-- C10. Totality of the Time variant: `Totp::get` reaches a panicking
branch (`Instant` subtraction underflow or division by zero) exactly
when the clock reads earlier than `t0` or the step is 0; under the
preconditions `step > 0` and `now ≥ t0` it always returns `Ok` with the
generator unchanged. -/
theorem time_get_totality (key : List Nat) (t0 nowv : Instant)
    (S d : Nat) :
    (Totp.get hmacInitSha1 (Totp.new_with_now key t0 S d) nowv = none
      ↔ (Instant.leb t0 nowv = false ∨ S = 0))
    ∧ (Instant.leb t0 nowv = true → 0 < S →
        ∃ v, Totp.get hmacInitSha1 (Totp.new_with_now key t0 S d) nowv
          = some (.ok v, Totp.new_with_now key t0 S d)) := by
  cases hle : Instant.leb t0 nowv with
  | false =>
    refine ⟨?_, ?_⟩
    · simp [Totp.get, Otp.get, Time.to_bytes, Instant.elapsedSecs,
            Totp.new_with_now, hle]
    · intro h
      exact absurd h (by simp)
  | true =>
    rcases Nat.eq_zero_or_pos S with rfl | hSpos
    · refine ⟨?_, ?_⟩
      · simp [Totp.get, Otp.get, Time.to_bytes, Totp.new_with_now,
              elapsedSecs_isSome t0 nowv hle]
      · intro _ hS0
        exact absurd hS0 (lt_irrefl 0)
    · have hS0 : S ≠ 0 := Nat.pos_iff_ne_zero.mp hSpos
      refine ⟨?_, ?_⟩
      · simp [Totp.get, Otp.get, Time.to_bytes, Totp.new_with_now,
              elapsedSecs_isSome t0 nowv hle, hS0, hmacInitSha1]
      · intro _ _
        refine ⟨beBytesToNat (dt (hmacSha1 key (u64ToBeBytes
          ((if t0.nanos ≤ nowv.nanos then nowv.secs - t0.secs
            else nowv.secs - t0.secs - 1) / S)))) % 10 ^ d, ?_⟩
        simp [Totp.get, Otp.get, Time.to_bytes, Totp.new_with_now,
              elapsedSecs_isSome t0 nowv hle, hS0, hmacInitSha1]

/-- Witness for C10 at the first RFC 6238 vector's parameters. -/
theorem time_get_totality_witness :
    (Totp.get hmacInitSha1 (Totp.new_with_now rfcKey ⟨0, 0⟩ 30 8) ⟨59, 0⟩
        = none
      ↔ (Instant.leb ⟨0, 0⟩ ⟨59, 0⟩ = false ∨ 30 = 0))
    ∧ (Instant.leb ⟨0, 0⟩ ⟨59, 0⟩ = true → 0 < 30 →
        ∃ v, Totp.get hmacInitSha1 (Totp.new_with_now rfcKey ⟨0, 0⟩ 30 8)
            ⟨59, 0⟩
          = some (.ok v, Totp.new_with_now rfcKey ⟨0, 0⟩ 30 8)) :=
  time_get_totality rfcKey ⟨0, 0⟩ ⟨59, 0⟩ 30 8

set_option maxRecDepth 2000000 in
set_option maxHeartbeats 4000000 in
/-- C1. RFC known-answer vectors: the Counter variant with the RFC key
and 6 digits yields the ten RFC 4226 codes at counters 0–9, and the
Time variant with the same key, 8 digits, step 30 and epoch 0 yields
the six RFC 6238 codes at the published clock readings. -/
theorem rfc_known_answer_vectors :
    (List.range 10).map (fun i => hotpCode rfcKey i 6)
      = [some 755224, some 287082, some 359152, some 969429, some 338314,
         some 254676, some 287922, some 162583, some 399871, some 520489]
    ∧ ([59, 1111111109, 1111111111, 1234567890, 2000000000,
        20000000000].map (fun t => totpCode rfcKey ⟨0, 0⟩ 30 8 ⟨t, 0⟩))
      = [some 94287082, some 7081804, some 14050471, some 89005924,
         some 69279037, some 65353130] := by
  constructor
  · decide
  · decide

end OtpRs
